import Mathlib

/-!
Verification of the Notefied frontend note-lifecycle core
(src/frontend/src/App.tsx, first revision of the component).

The TypeScript component is shallowly embedded: strings are Lean strings
(manipulated through their character lists), timestamps are naturals
(milliseconds, as produced by Date.getTime), the React state hooks become
fields of an explicit state record, and the debounced auto-save effect
becomes an explicit timer field on a system state.  Network requests are
recorded in an ordered log instead of being performed.
-/

namespace Notefied

/-! ### JavaScript string primitives

The component uses String.prototype.trim, split(/\s+/), toLowerCase and
includes.  We model them on character lists.  JS \s includes space, tab,
newline, carriage return, vertical tab and form feed (further Unicode
space characters are irrelevant to the claims). -/

def isJsWhitespace (c : Char) : Bool :=
  c = ' ' || c = '\t' || c = '\n' || c = '\r' || c = '\x0b' || c = '\x0c'

/-- String.prototype.trim on the character list: drop whitespace from both ends. -/
def trimL (l : List Char) : List Char :=
  ((l.dropWhile isJsWhitespace).reverse.dropWhile isJsWhitespace).reverse

/-- String.prototype.trim. -/
def jsTrim (s : String) : String := ⟨trimL s.data⟩

/-- String.prototype.toLowerCase, character-wise (ASCII-faithful). -/
def lowerL (l : List Char) : List Char := l.map Char.toLower

/-- Does the second list occur as a prefix of the first is tested by this helper. -/
def prefixTest : List Char → List Char → Bool
  | [], _ => true
  | _ :: _, [] => false
  | a :: as, b :: bs => a = b && prefixTest as bs

/-- String.prototype.includes: does sub occur contiguously inside hay. -/
def containsSub (hay sub : List Char) : Bool :=
  match hay with
  | [] => prefixTest sub []
  | c :: t => prefixTest sub (c :: t) || containsSub t sub

/-! ### split(/\s+/): whitespace tokenisation

split(/\s+/) applied to a trimmed string returns the maximal runs of
non-whitespace characters, in order.  tokens computes those runs by a
right fold carrying the token currently being assembled. -/

def flushTok (p : List Char × List (List Char)) : List (List Char) :=
  if p.1 = [] then p.2 else p.1 :: p.2

def tokensStep (c : Char) (p : List Char × List (List Char)) :
    List Char × List (List Char) :=
  if isJsWhitespace c then ([], flushTok p) else (c :: p.1, p.2)

/-- The maximal non-whitespace runs of a character list, in order.  For a
trimmed non-blank string this is exactly JS trimmed.split(/\s+/). -/
def tokens (l : List Char) : List (List Char) :=
  flushTok (l.foldr tokensStep ([], []))

/-- Array.prototype.join(" "). -/
def sepJoin : List (List Char) → List Char
  | [] => []
  | [t] => t
  | t :: ts => t ++ ' ' :: sepJoin ts

/-- words.slice(0, 5).join(" ") + (words.length > 5 ? "..." : ""), the
expression shared by the title effect (App.tsx lines 482-483) and addNote
(line 195). -/
def joinWords (words : List (List Char)) : List Char :=
  sepJoin (words.take 5) ++ (if 5 < words.length then ['.', '.', '.'] else [])

/-- The title derivation performed by the useEffect at App.tsx lines
477-486: blank content gives the empty title, otherwise the first five
whitespace-separated words of the trimmed content joined by single spaces,
with "..." appended when more than five words exist. -/
def deriveTitle (content : String) : String :=
  if trimL content.data = [] then ""
  else ⟨joinWords (tokens (trimL content.data))⟩

/-- The title sent by addNote (App.tsx line 195):
currentTitle.trim() || words.slice(0,5).join(" ") + (words.length > 5 ? "..." : "")
where words = newContent.trim().split(/\s+/).  The JS or-else takes the
trimmed current title when it is non-empty. -/
def addNoteTitle (currentTitle content : String) : String :=
  if trimL currentTitle.data = [] then ⟨joinWords (tokens (trimL content.data))⟩
  else ⟨trimL currentTitle.data⟩

/-- Modelled from the spec text of C3 (spec.md section 4.1 and property 4):
splits the content on whitespace, joins the first 5 tokens with single
spaces, appends "..." exactly when more than 5 tokens exist, and returns ""
for blank or whitespace-only content.  Stated independently of the source
function deriveTitle so the two can be compared. -/
def deriveTitleSpec (content : String) : String :=
  if tokens content.data = [] then ""
  else ⟨joinWords (tokens content.data)⟩


/-- A well-formed token: non-empty, made only of non-whitespace characters. -/
def goodTok (tk : List Char) : Prop :=
  tk ≠ [] ∧ ∀ c ∈ tk, isJsWhitespace c = false
/-! ### Data model (App.tsx lines 16-27)

updated_at and trashed_at are the millisecond timestamps that
new Date(x).getTime() yields for the server strings; the comparator
(a, b) => new Date(b.updated_at).getTime() - new Date(a.updated_at).getTime()
orders by that number, descending. -/

structure Note where
  id : Nat
  user_id : Nat
  title : String
  content : String
  updated_at : Nat
deriving DecidableEq

structure TrashedNote where
  id : Nat
  user_id : Nat
  title : String
  content : String
  updated_at : Nat
  trashed_at : Nat
deriving DecidableEq

/-- The order the descending updated_at comparator sorts into. -/
def updatedDesc (a b : Note) : Prop := b.updated_at ≤ a.updated_at

instance : DecidableRel updatedDesc := fun a b => Nat.decLe b.updated_at a.updated_at

instance : IsTotal Note updatedDesc :=
  ⟨fun a b => Nat.le_total b.updated_at a.updated_at⟩

instance : IsTrans Note updatedDesc :=
  ⟨fun _ _ _ hab hbc => Nat.le_trans hbc hab⟩

/-- The order the descending trashed_at comparator sorts into. -/
def trashedDesc (a b : TrashedNote) : Prop := b.trashed_at ≤ a.trashed_at

instance : DecidableRel trashedDesc := fun a b => Nat.decLe b.trashed_at a.trashed_at

instance : IsTotal TrashedNote trashedDesc :=
  ⟨fun a b => Nat.le_total b.trashed_at a.trashed_at⟩

instance : IsTrans TrashedNote trashedDesc :=
  ⟨fun _ _ _ hab hbc => Nat.le_trans hbc hab⟩

/-- .sort((a, b) => new Date(b.updated_at).getTime() - new Date(a.updated_at).getTime()):
a sort of the list into descending updated_at order. -/
def sortByUpdatedDesc (l : List Note) : List Note := List.insertionSort updatedDesc l

/-- .sort((a, b) => new Date(b.trashed_at).getTime() - new Date(a.trashed_at).getTime()). -/
def sortByTrashedDesc (l : List TrashedNote) : List TrashedNote :=
  List.insertionSort trashedDesc l

/-! ### Search projection (App.tsx lines 83-97) -/

/-- note.title.toLowerCase().includes(searchQuery.toLowerCase()) ||
note.content.toLowerCase().includes(searchQuery.toLowerCase()). -/
def matchesQuery (q title content : String) : Bool :=
  containsSub (lowerL title.data) (lowerL q.data) ||
  containsSub (lowerL content.data) (lowerL q.data)

/-- filteredNotes (App.tsx lines 83-89): filter by the live query, then sort
by updated_at descending. -/
def filteredNotes (notes : List Note) (q : String) : List Note :=
  sortByUpdatedDesc (notes.filter fun n => matchesQuery q n.title n.content)

/-- filteredTrashedNotes (App.tsx lines 91-97). -/
def filteredTrashedNotes (trashed : List TrashedNote) (q : String) : List TrashedNote :=
  sortByTrashedDesc (trashed.filter fun n => matchesQuery q n.title n.content)

/-- handleSelectAll (App.tsx lines 106-112): compares the LENGTH of the
selection with the length of the visible list; on equality (and a non-empty
visible list) it clears the selection, otherwise it selects every visible
trashed note. -/
def handleSelectAll (selected : List Nat) (trashed : List TrashedNote) (q : String) :
    List Nat :=
  let visible := filteredTrashedNotes trashed q
  if selected.length = visible.length ∧ 0 < visible.length then []
  else visible.map fun n => n.id

/-! ### Collection mutations (the setNotes call sites) -/

/-- addNote success (App.tsx lines 202-205): prepend the response, re-sort. -/
def addNoteNotes (resp : Note) (notes : List Note) : List Note :=
  sortByUpdatedDesc (resp :: notes)

/-- saveEdit success (App.tsx lines 317-320): replace the edited note by the
response, re-sort. -/
def saveEditNotes (nid : Nat) (resp : Note) (notes : List Note) : List Note :=
  sortByUpdatedDesc (notes.map fun n => if n.id = nid then resp else n)

/-- deleteNote success (App.tsx line 236): drop the trashed note. -/
def deleteNoteNotes (nid : Nat) (notes : List Note) : List Note :=
  notes.filter fun n => n.id != nid

/-- bulk-restore success (App.tsx lines 627-631): append the restored notes,
re-sort. -/
def restoreNotesList (restored : List Note) (notes : List Note) : List Note :=
  sortByUpdatedDesc (notes ++ restored)

/-- undo (App.tsx lines 524-528): append the buffered note, re-sort. -/
def undoNotes (note : Note) (notes : List Note) : List Note :=
  sortByUpdatedDesc (notes ++ [note])

/-! ### Edit-session state and the debounced auto-save

AppState collects the React state hooks that the note lifecycle reads and
writes.  Sys adds the wall clock, the single pending debounce timer of the
auto-save effect (App.tsx lines 489-499: the effect clears the previous
timer on every dependency change and arms a new one only when a token is
present and the content is non-blank), the ordered log of issued requests
and the alert messages shown to the user. -/

structure AppState where
  token : Option String
  notes : List Note
  selectedNoteId : Option Nat
  newContent : String
  originalContent : String
  currentTitle : String
  originalTitle : String
  isTitleManual : Bool
  tempDeletedNote : Option Note
deriving DecidableEq

inductive Request where
  | create (title content : String)
  | update (id : Nat) (title content : String)
  | moveToTrash (id : Nat)
  | restore (id : Nat)
deriving DecidableEq

structure Sys where
  app : AppState
  now : Nat
  timer : Option Nat
  sent : List Request
  alerts : List String
deriving DecidableEq

/-- handleContentChange (App.tsx lines 502-515). -/
def handleContentChange (content : String) (s : AppState) : AppState :=
  if trimL content.data = [] ∧ s.selectedNoteId ≠ none ∧ s.tempDeletedNote = none then
    match s.selectedNoteId with
    | some nid =>
      match s.notes.find? fun n => n.id == nid with
      | some noteToDelete =>
        { s with newContent := content,
                 tempDeletedNote := some noteToDelete,
                 notes := s.notes.filter fun n => n.id != nid,
                 selectedNoteId := none }
      | none => { s with newContent := content }
    | none => { s with newContent := content }
  else if trimL content.data ≠ [] ∧ s.tempDeletedNote ≠ none then
    { s with newContent := content, tempDeletedNote := none }
  else
    { s with newContent := content }

/-- The title-derivation effect (App.tsx lines 477-486), which runs after
every content change. -/
def titleEffect (s : AppState) : AppState :=
  if s.isTitleManual then s else { s with currentTitle := deriveTitle s.newContent }

/-- The timer the auto-save effect (App.tsx lines 489-499) leaves armed
after re-running at time now: none unless a token is present and the
content is non-blank, else now + 2000. -/
def armTimer (app : AppState) (now : Nat) : Option Nat :=
  match app.token with
  | none => none
  | some _ => if trimL app.newContent.data = [] then none else some (now + 2000)

/-- The create request addNote issues (App.tsx lines 192-201), or none when
its guard returns early. -/
def addNoteRequest (s : AppState) : Option Request :=
  match s.token with
  | none => none
  | some _ =>
    if trimL s.newContent.data = [] then none
    else some (.create (addNoteTitle s.currentTitle s.newContent) s.newContent)

/-- The update request saveEdit issues (App.tsx lines 300-316), or none when
a guard or the empty-content-with-tombstone branch returns early.  The body
carries the TRIMMED content, and an empty title whenever the trimmed
content is empty. -/
def saveEditRequest (s : AppState) : Option Request :=
  match s.token, s.selectedNoteId with
  | some _, some nid =>
    let contentToSave : String := ⟨trimL s.newContent.data⟩
    let titleToSave : String := if contentToSave = "" then "" else s.currentTitle
    if contentToSave = "" ∧ s.tempDeletedNote ≠ none then none
    else some (.update nid titleToSave contentToSave)
  | _, _ => none

inductive NetResult (α : Type) where
  | ok (a : α)
  | err
deriving DecidableEq

/-- State change and alerts when the addNote request completes (App.tsx
lines 202-215): on success adopt the response as the new baseline; on
failure log to the console and alert the user. -/
def addNoteComplete (r : NetResult Note) (s : AppState) : AppState × List String :=
  match r with
  | .ok resp =>
    ({ s with notes := addNoteNotes resp s.notes,
              selectedNoteId := some resp.id,
              currentTitle := resp.title,
              originalTitle := resp.title,
              originalContent := s.newContent,
              tempDeletedNote := none }, [])
  | .err => (s, ["Failed to add note"])

/-- State change and alerts when the saveEdit request completes (App.tsx
lines 311-328): on success replace the note and adopt the trimmed content
and saved title as the new baseline; on failure only console.error runs,
so the state is untouched and nothing is surfaced. -/
def saveEditComplete (r : NetResult Note) (s : AppState) : AppState × List String :=
  match s.selectedNoteId with
  | none => (s, [])
  | some nid =>
    match r with
    | .ok resp =>
      let contentToSave : String := ⟨trimL s.newContent.data⟩
      let titleToSave : String := if contentToSave = "" then "" else s.currentTitle
      ({ s with notes := saveEditNotes nid resp s.notes,
                originalContent := contentToSave,
                originalTitle := titleToSave,
                currentTitle := titleToSave,
                tempDeletedNote := none }, [])
    | .err => (s, [])

/-- The debounce callback (App.tsx lines 491-497): create when no note is
selected, update when the session is dirty, otherwise nothing.  Only the
request issuance happens here; responses arrive later. -/
def fireTimer (sys : Sys) : Sys :=
  match sys.app.selectedNoteId with
  | none =>
    match addNoteRequest sys.app with
    | some r => { sys with sent := sys.sent ++ [r] }
    | none => sys
  | some _ =>
    if sys.app.newContent ≠ sys.app.originalContent ∨
        sys.app.currentTitle ≠ sys.app.originalTitle then
      match saveEditRequest sys.app with
      | some r => { sys with sent := sys.sent ++ [r] }
      | none => sys
    else sys

/-- Let the wall clock reach t with no intervening UI event: the armed
timer fires if its deadline is at or before t.  A fired timer re-arms only
through a later state change (the React effect re-runs only when its
dependencies change). -/
def advanceTo (t : Nat) (sys : Sys) : Sys :=
  match sys.timer with
  | some ft =>
    if ft ≤ t then
      let fired := fireTimer { sys with now := ft, timer := none }
      { fired with now := t }
    else { sys with now := t }
  | none => { sys with now := t }

/-- One textarea change event at a given time: any due timer fires first,
then handleContentChange and the title effect run, then the auto-save
effect re-arms. -/
def keystrokeStep (sys : Sys) (tc : Nat × String) : Sys :=
  { advanceTo tc.1 sys with
    app := titleEffect (handleContentChange tc.2 (advanceTo tc.1 sys).app),
    timer := armTimer (titleEffect (handleContentChange tc.2 (advanceTo tc.1 sys).app)) tc.1 }

def runKeystrokes (sys : Sys) (ks : List (Nat × String)) : Sys :=
  ks.foldl keystrokeStep sys

/-- The Ctrl+Z handler (App.tsx lines 518-543): a no-op unless the undo
buffer holds a note; otherwise the note returns to the collection and
repopulates the session as both current and baseline values. -/
def undoHandler (s : AppState) : AppState :=
  match s.tempDeletedNote with
  | none => s
  | some note =>
    { s with notes := undoNotes note s.notes,
             selectedNoteId := some note.id,
             newContent := note.content,
             currentTitle := note.title,
             originalContent := note.content,
             originalTitle := note.title,
             tempDeletedNote := none }

/-- An undo event at a given time: any due timer fires first, then the
handler and the title effect run, then the auto-save effect re-arms. -/
def undoStep (t : Nat) (sys : Sys) : Sys :=
  { advanceTo t sys with
    app := titleEffect (undoHandler (advanceTo t sys).app),
    timer := armTimer (titleEffect (undoHandler (advanceTo t sys).app)) t }

/-! ### Bulk restore (App.tsx lines 622-635 and 249-266)

outcome i is the response of POST /trashed-notes/i/restore: some note on
success, none on failure (restoreNote then returns null after alerting and
re-fetching). -/

/-- One restore request is issued per selected id. -/
def restoreRequests (sel : List Nat) : List Request := sel.map Request.restore

/-- The Restore button click (App.tsx lines 623-634): collect the non-null
results; if any succeeded, append them to the active notes (re-sorted),
drop EVERY selected id from the trashed list and clear the selection;
if all failed, no setState call runs. -/
def bulkRestoreClick (outcome : Nat → Option Note) (sel : List Nat)
    (notes : List Note) (trashed : List TrashedNote) :
    List Note × List TrashedNote × List Nat :=
  let valid := sel.filterMap outcome
  if 0 < valid.length then
    (restoreNotesList valid notes,
     trashed.filter fun n => !(sel.contains n.id),
     [])
  else (notes, trashed, sel)

/-- Admissible keystroke timings: each event happens at or after the clock
and strictly before any armed auto-save deadline (all the edits fall inside
one debounce window), with the timer evolving by the arming rule of a
signed-in session. -/
def noFireTimes : Option Nat → Nat → List (Nat × String) → Prop
  | _, _, [] => True
  | tm, now, (t, c) :: rest =>
    now ≤ t ∧ (∀ ft, tm = some ft → t < ft) ∧
    noFireTimes (if trimL c.data = [] then none else some (t + 2000)) t rest

/-! ### Concrete states used by witnesses and counterexamples -/

def exNote : Note :=
  { id := 1, user_id := 7, title := "hello world", content := "hello world",
    updated_at := 100 }

/-- A signed-in session with exNote open and clean. -/
def exOpenSys : Sys :=
  { app := { token := some "tok", notes := [exNote], selectedNoteId := some 1,
             newContent := "hello world", originalContent := "hello world",
             currentTitle := "hello world", originalTitle := "hello world",
             isTitleManual := false, tempDeletedNote := none },
    now := 0, timer := none, sent := [], alerts := [] }

/-- A signed-in session with a blank editor and no note selected. -/
def exBlankSys : Sys :=
  { app := { token := some "tok", notes := [], selectedNoteId := none,
             newContent := "", originalContent := "", currentTitle := "",
             originalTitle := "", isTitleManual := false, tempDeletedNote := none },
    now := 0, timer := none, sent := [], alerts := [] }

/-- An edit session whose textarea content differs from its own trim. -/
def exDirtyState : AppState :=
  { token := some "tok", notes := [exNote], selectedNoteId := some 1,
    newContent := "hi ", originalContent := "hello world",
    currentTitle := "hi", originalTitle := "hello world",
    isTitleManual := false, tempDeletedNote := none }

def exT1 : TrashedNote :=
  { id := 1, user_id := 7, title := "alpha", content := "alpha",
    updated_at := 50, trashed_at := 60 }

def exT2 : TrashedNote :=
  { id := 2, user_id := 7, title := "beta", content := "beta",
    updated_at := 55, trashed_at := 65 }

def exRestored1 : Note :=
  { id := 1, user_id := 7, title := "alpha", content := "alpha", updated_at := 200 }

/-- A bulk-restore outcome where id 1 succeeds and every other id fails. -/
def outcomeOneFail : Nat → Option Note :=
  fun i => if i = 1 then some exRestored1 else none

/-! ### Lemmas about the tokeniser -/

theorem tokens_cons (c : Char) (l : List Char) :
    tokens (c :: l) = flushTok (tokensStep c (l.foldr tokensStep ([], []))) := rfl

theorem tokens_cons_ws {c : Char} (l : List Char) (h : isJsWhitespace c = true) :
    tokens (c :: l) = tokens l := by
  rw [tokens_cons, tokensStep, if_pos h]
  simp [flushTok, tokens]

theorem foldr_tokensStep_all_ws {w : List Char}
    (h : ∀ c ∈ w, isJsWhitespace c = true) :
    w.foldr tokensStep ([], []) = ([], []) := by
  induction w with
  | nil => rfl
  | cons c t ih =>
    have hc : isJsWhitespace c = true := h c (List.mem_cons_self c t)
    have ht : ∀ c ∈ t, isJsWhitespace c = true := fun x hx => h x (List.mem_cons_of_mem c hx)
    simp only [List.foldr_cons, ih ht, tokensStep, if_pos hc, flushTok]
    rfl

theorem tokens_append_ws (l : List Char) {w : List Char}
    (h : ∀ c ∈ w, isJsWhitespace c = true) :
    tokens (l ++ w) = tokens l := by
  unfold tokens
  rw [List.foldr_append, foldr_tokensStep_all_ws h]

theorem tokens_dropWhile_ws (l : List Char) :
    tokens (l.dropWhile isJsWhitespace) = tokens l := by
  induction l with
  | nil => rfl
  | cons c t ih =>
    by_cases hc : isJsWhitespace c = true
    · rw [List.dropWhile_cons, if_pos hc, ih, tokens_cons_ws t hc]
    · rw [List.dropWhile_cons, if_neg hc]

theorem tokens_trimL (l : List Char) : tokens (trimL l) = tokens l := by
  unfold trimL
  set m := l.dropWhile isJsWhitespace with hm
  have hsplit : m = (m.reverse.dropWhile isJsWhitespace).reverse
      ++ (m.reverse.takeWhile isJsWhitespace).reverse := by
    conv_lhs => rw [← List.reverse_reverse m]
    rw [← List.reverse_append, List.takeWhile_append_dropWhile]
  have hws : ∀ c ∈ (m.reverse.takeWhile isJsWhitespace).reverse, isJsWhitespace c = true := by
    intro c hc
    exact List.mem_takeWhile_imp (List.mem_reverse.mp hc)
  calc tokens ((m.reverse.dropWhile isJsWhitespace).reverse)
      = tokens ((m.reverse.dropWhile isJsWhitespace).reverse
          ++ (m.reverse.takeWhile isJsWhitespace).reverse) := (tokens_append_ws _ hws).symm
    _ = tokens m := by rw [← hsplit]
    _ = tokens l := by rw [hm, tokens_dropWhile_ws]

theorem tokens_eq_nil_iff (l : List Char) :
    tokens l = [] ↔ ∀ c ∈ l, isJsWhitespace c = true := by
  induction l with
  | nil => simp [tokens, flushTok]
  | cons c t ih =>
    by_cases hc : isJsWhitespace c = true
    · rw [tokens_cons_ws t hc, ih]
      constructor
      · intro h x hx
        rcases List.mem_cons.mp hx with rfl | hx
        · exact hc
        · exact h x hx
      · intro h x hx
        exact h x (List.mem_cons_of_mem c hx)
    · constructor
      · intro h
        rw [tokens_cons, tokensStep, if_neg hc] at h
        simp [flushTok] at h
      · intro h
        exact absurd (h c (List.mem_cons_self c t)) hc

theorem trimL_eq_nil_iff (l : List Char) :
    trimL l = [] ↔ ∀ c ∈ l, isJsWhitespace c = true := by
  unfold trimL
  rw [List.reverse_eq_nil_iff, List.dropWhile_eq_nil_iff]
  constructor
  · intro h c hc
    have hl : l = l.takeWhile isJsWhitespace ++ l.dropWhile isJsWhitespace :=
      (List.takeWhile_append_dropWhile _ _).symm
    rw [hl] at hc
    rcases List.mem_append.mp hc with h1 | h1
    · exact List.mem_takeWhile_imp h1
    · exact h _ (List.mem_reverse.mpr h1)
  · intro h c hc
    have : c ∈ l.dropWhile isJsWhitespace := List.mem_reverse.mp hc
    exact h c (List.Sublist.mem this (List.dropWhile_sublist _))

theorem tokens_eq_nil_iff_trimL (l : List Char) :
    tokens l = [] ↔ trimL l = [] := by
  rw [tokens_eq_nil_iff, trimL_eq_nil_iff]

theorem foldr_tokensStep_good (l : List Char) :
    (∀ c ∈ (l.foldr tokensStep ([], [])).1, isJsWhitespace c = false) ∧
    (∀ tk ∈ (l.foldr tokensStep ([], [])).2, goodTok tk) := by
  induction l with
  | nil => exact ⟨by intro c hc; simp at hc, by intro tk htk; simp at htk⟩
  | cons c t ih =>
    simp only [List.foldr_cons]
    by_cases hc : isJsWhitespace c = true
    · rw [tokensStep, if_pos hc]
      refine ⟨by intro x hx; simp at hx, ?_⟩
      intro tk htk
      unfold flushTok at htk
      split at htk
      · exact ih.2 tk htk
      · rcases List.mem_cons.mp htk with rfl | htk
        · exact ⟨by assumption, ih.1⟩
        · exact ih.2 tk htk
    · rw [tokensStep, if_neg hc]
      refine ⟨?_, ih.2⟩
      intro x hx
      rcases List.mem_cons.mp hx with rfl | hx
      · exact Bool.eq_false_iff.mpr hc
      · exact ih.1 x hx

theorem tokens_good (l : List Char) : ∀ tk ∈ tokens l, goodTok tk := by
  intro tk htk
  unfold tokens flushTok at htk
  split at htk
  · exact (foldr_tokensStep_good l).2 tk htk
  · rcases List.mem_cons.mp htk with rfl | htk
    · exact ⟨by assumption, (foldr_tokensStep_good l).1⟩
    · exact (foldr_tokensStep_good l).2 tk htk

theorem sepJoin_head :
    ∀ ts : List (List Char), ts ≠ [] → (∀ tk ∈ ts, goodTok tk) →
      ∃ c cs, sepJoin ts = c :: cs ∧ isJsWhitespace c = false := by
  intro ts hne hgood
  match ts with
  | [t] =>
    have hg := hgood t (List.mem_cons_self t [])
    obtain ⟨c, cs, rfl⟩ := List.exists_cons_of_ne_nil hg.1
    exact ⟨c, cs, rfl, hg.2 c (List.mem_cons_self c cs)⟩
  | t :: t2 :: r =>
    have hg := hgood t (List.mem_cons_self t _)
    obtain ⟨c, cs, rfl⟩ := List.exists_cons_of_ne_nil hg.1
    exact ⟨c, cs ++ ' ' :: sepJoin (t2 :: r), by simp [sepJoin],
      hg.2 c (List.mem_cons_self c cs)⟩

theorem sepJoin_getLast :
    ∀ ts : List (List Char), ts ≠ [] → (∀ tk ∈ ts, goodTok tk) →
      ∃ c, (sepJoin ts).getLast? = some c ∧ isJsWhitespace c = false := by
  intro ts
  induction ts with
  | nil => intro h; exact absurd rfl h
  | cons t rest ih =>
    intro _ hgood
    match rest with
    | [] =>
      have hg := hgood t (List.mem_cons_self t [])
      exact ⟨t.getLast hg.1, by simp [sepJoin, List.getLast?_eq_getLast t hg.1],
        hg.2 _ (List.getLast_mem hg.1)⟩
    | t2 :: r =>
      have hrest : ∀ tk ∈ t2 :: r, goodTok tk := by
        intro tk htk
        exact hgood tk (List.mem_cons_of_mem t htk)
      obtain ⟨c, hc, hcws⟩ := ih (by simp) hrest
      obtain ⟨d, ds, hds⟩ : ∃ d ds, sepJoin (t2 :: r) = d :: ds := by
        obtain ⟨d, ds, h1, _⟩ := sepJoin_head (t2 :: r) (by simp) hrest
        exact ⟨d, ds, h1⟩
      refine ⟨c, ?_, hcws⟩
      show (t ++ ' ' :: sepJoin (t2 :: r)).getLast? = some c
      rw [List.getLast?_append, hds, List.getLast?_cons_cons, ← hds, hc]
      rfl

theorem joinWords_tokens_facts (content : String) (h : trimL content.data ≠ []) :
    (∃ c cs, joinWords (tokens (trimL content.data)) = c :: cs ∧ isJsWhitespace c = false) ∧
    (∃ c, (joinWords (tokens (trimL content.data))).getLast? = some c ∧
      isJsWhitespace c = false) := by
  set toks := tokens (trimL content.data) with htoks
  have htne : toks ≠ [] := by
    rw [htoks, tokens_trimL]
    intro hnil
    exact h ((tokens_eq_nil_iff_trimL content.data).mp hnil)
  have htake_ne : toks.take 5 ≠ [] := by
    obtain ⟨t, r, heq⟩ := List.exists_cons_of_ne_nil htne
    rw [heq]
    simp [List.take_cons]
  have htake_good : ∀ tk ∈ toks.take 5, goodTok tk := by
    intro tk htk
    exact tokens_good _ tk (List.Sublist.mem htk (List.take_sublist 5 toks))
  obtain ⟨c, cs, hcons, hcws⟩ := sepJoin_head (toks.take 5) htake_ne htake_good
  constructor
  · refine ⟨c, cs ++ (if 5 < toks.length then ['.', '.', '.'] else []), ?_, hcws⟩
    rw [joinWords, hcons]
    rfl
  · by_cases hlen : 5 < toks.length
    · refine ⟨'.', ?_, by decide⟩
      rw [joinWords, if_pos hlen, List.getLast?_append]
      rfl
    · obtain ⟨d, hd, hdws⟩ := sepJoin_getLast (toks.take 5) htake_ne htake_good
      refine ⟨d, ?_, hdws⟩
      rw [joinWords, if_neg hlen, List.append_nil]
      exact hd

theorem trimL_eq_self {l : List Char}
    (h1 : ∀ c, l.head? = some c → isJsWhitespace c = false)
    (h2 : ∀ c, l.getLast? = some c → isJsWhitespace c = false) :
    trimL l = l := by
  have hd : l.dropWhile isJsWhitespace = l := by
    cases l with
    | nil => rfl
    | cons c cs =>
      rw [List.dropWhile_cons, if_neg]
      simp [h1 c List.head?_cons]
  unfold trimL
  rw [hd]
  have hr : l.reverse.dropWhile isJsWhitespace = l.reverse := by
    cases hrev : l.reverse with
    | nil => rfl
    | cons c cs =>
      have hlast : l.getLast? = some c := by
        rw [← List.head?_reverse, hrev, List.head?_cons]
      rw [List.dropWhile_cons, if_neg]
      simp [h2 c hlast]
  rw [hr, List.reverse_reverse]

theorem deriveTitle_data (content : String) (h : trimL content.data ≠ []) :
    (deriveTitle content).data = joinWords (tokens (trimL content.data)) := by
  rw [deriveTitle, if_neg h]

theorem deriveTitle_trim_fix (content : String) (h : trimL content.data ≠ []) :
    trimL (deriveTitle content).data = (deriveTitle content).data ∧
    (deriveTitle content).data ≠ [] := by
  obtain ⟨⟨c, cs, hcons, hcws⟩, ⟨d, hd, hdws⟩⟩ := joinWords_tokens_facts content h
  rw [deriveTitle_data content h]
  constructor
  · refine trimL_eq_self ?_ ?_
    · intro x hx
      rw [hcons, List.head?_cons] at hx
      cases hx
      exact hcws
    · intro x hx
      rw [hd] at hx
      cases hx
      exact hdws
  · rw [hcons]
    exact List.cons_ne_nil c cs

/-- addNote derives exactly deriveTitle of the content whenever the current
title already is the derived title (the only reachable case: the title
effect always stores deriveTitle of the content and no manual-title entry
point exists in this revision). -/
theorem addNoteTitle_derive (content : String) (h : trimL content.data ≠ []) :
    addNoteTitle (deriveTitle content) content = deriveTitle content := by
  obtain ⟨htrim, hne⟩ := deriveTitle_trim_fix content h
  rw [addNoteTitle, htrim, if_neg hne]

theorem deriveTitleSpec_eq_deriveTitle (content : String) :
    deriveTitleSpec content = deriveTitle content := by
  rw [deriveTitleSpec, deriveTitle, ← tokens_trimL content.data]
  by_cases h : trimL content.data = []
  · rw [if_pos h, if_pos]
    rw [tokens_trimL]
    exact (tokens_eq_nil_iff_trimL content.data).mpr h
  · rw [if_neg h, if_neg]
    rw [tokens_trimL]
    exact fun hh => h ((tokens_eq_nil_iff_trimL content.data).mp hh)

theorem sortByUpdatedDesc_sorted (l : List Note) :
    List.Sorted updatedDesc (sortByUpdatedDesc l) :=
  List.sorted_insertionSort updatedDesc l

theorem mem_sortByUpdatedDesc {n : Note} {l : List Note} :
    n ∈ sortByUpdatedDesc l ↔ n ∈ l :=
  (List.perm_insertionSort updatedDesc l).mem_iff

theorem sortByTrashedDesc_sorted (l : List TrashedNote) :
    List.Sorted trashedDesc (sortByTrashedDesc l) :=
  List.sorted_insertionSort trashedDesc l

theorem mem_sortByTrashedDesc {n : TrashedNote} {l : List TrashedNote} :
    n ∈ sortByTrashedDesc l ↔ n ∈ l :=
  (List.perm_insertionSort trashedDesc l).mem_iff

/-! ### Running the debounce model -/

theorem stringMk_eq_empty_iff (l : List Char) : (⟨l⟩ : String) = "" ↔ l = [] := by
  constructor
  · intro h
    exact congrArg String.data h
  · intro h
    rw [h]

theorem advanceTo_no_fire {sys : Sys} {t : Nat}
    (h : ∀ ft, sys.timer = some ft → t < ft) :
    advanceTo t sys = { sys with now := t } := by
  unfold advanceTo
  cases htm : sys.timer with
  | none => rfl
  | some ft => simp [Nat.not_le.mpr (h ft htm)]

theorem noFireTimes_nil (tm : Option Nat) (now : Nat) : noFireTimes tm now [] := trivial

theorem noFireTimes_cons (tm : Option Nat) (now t : Nat) (c : String)
    (rest : List (Nat × String)) :
    noFireTimes tm now ((t, c) :: rest) ↔
      now ≤ t ∧ (∀ ft, tm = some ft → t < ft) ∧
      noFireTimes (if trimL c.data = [] then none else some (t + 2000)) t rest :=
  Iff.rfl

theorem keystrokeStep_blank_session (tok : String) (sys : Sys) (t : Nat) (c : String)
    (h1 : sys.app.token = some tok) (h2 : sys.app.selectedNoteId = none)
    (h3 : sys.app.tempDeletedNote = none) (h4 : sys.app.isTitleManual = false)
    (hnf : ∀ ft, sys.timer = some ft → t < ft) :
    keystrokeStep sys (t, c) =
      { sys with
        app := { sys.app with newContent := c, currentTitle := deriveTitle c },
        now := t,
        timer := if trimL c.data = [] then none else some (t + 2000) } := by
  unfold keystrokeStep
  rw [advanceTo_no_fire hnf]
  have happ : handleContentChange c ({ sys with now := t } : Sys).app
      = { sys.app with newContent := c } := by
    show handleContentChange c sys.app = _
    unfold handleContentChange
    rw [if_neg (fun h => h.2.1 h2), if_neg (fun h => h.2 h3)]
  rw [happ]
  have htitle : titleEffect { sys.app with newContent := c }
      = { sys.app with newContent := c, currentTitle := deriveTitle c } := by
    unfold titleEffect
    rw [if_neg]
    show ¬({ sys.app with newContent := c } : AppState).isTitleManual = true
    simp [h4]
  rw [htitle]
  unfold armTimer
  simp only [h1]

theorem keystrokeStep_open_session (tok : String) (nid : Nat) (sys : Sys)
    (t : Nat) (c : String)
    (h1 : sys.app.token = some tok) (h2 : sys.app.selectedNoteId = some nid)
    (h3 : sys.app.tempDeletedNote = none) (h4 : sys.app.isTitleManual = false)
    (hc : trimL c.data ≠ [])
    (hnf : ∀ ft, sys.timer = some ft → t < ft) :
    keystrokeStep sys (t, c) =
      { sys with
        app := { sys.app with newContent := c, currentTitle := deriveTitle c },
        now := t,
        timer := some (t + 2000) } := by
  unfold keystrokeStep
  rw [advanceTo_no_fire hnf]
  have happ : handleContentChange c ({ sys with now := t } : Sys).app
      = { sys.app with newContent := c } := by
    show handleContentChange c sys.app = _
    unfold handleContentChange
    rw [if_neg (fun h => hc h.1), if_neg (fun h => h.2 h3)]
  rw [happ]
  have htitle : titleEffect { sys.app with newContent := c }
      = { sys.app with newContent := c, currentTitle := deriveTitle c } := by
    unfold titleEffect
    rw [if_neg]
    show ¬({ sys.app with newContent := c } : AppState).isTitleManual = true
    simp [h4]
  rw [htitle]
  unfold armTimer
  simp only [h1]
  rw [if_neg hc]

theorem runKeystrokes_blank_session (tok : String) :
    ∀ (ks : List (Nat × String)) (sys : Sys),
      sys.app.token = some tok → sys.app.selectedNoteId = none →
      sys.app.tempDeletedNote = none → sys.app.isTitleManual = false →
      noFireTimes sys.timer sys.now ks →
      (runKeystrokes sys ks).app.token = some tok ∧
      (runKeystrokes sys ks).app.selectedNoteId = none ∧
      (runKeystrokes sys ks).app.tempDeletedNote = none ∧
      (runKeystrokes sys ks).app.isTitleManual = false ∧
      (runKeystrokes sys ks).sent = sys.sent ∧
      (runKeystrokes sys ks).app.notes = sys.app.notes ∧
      (runKeystrokes sys ks).app.originalContent = sys.app.originalContent ∧
      (runKeystrokes sys ks).app.originalTitle = sys.app.originalTitle ∧
      (ks = [] → runKeystrokes sys ks = sys) ∧
      (∀ t c, ks.getLast? = some (t, c) →
        (runKeystrokes sys ks).now = t ∧
        (runKeystrokes sys ks).app.newContent = c ∧
        (runKeystrokes sys ks).app.currentTitle = deriveTitle c ∧
        (runKeystrokes sys ks).timer =
          (if trimL c.data = [] then none else some (t + 2000))) := by
  intro ks
  induction ks with
  | nil =>
    intro sys h1 h2 h3 h4 _
    refine ⟨h1, h2, h3, h4, rfl, rfl, rfl, rfl, fun _ => rfl, ?_⟩
    intro t c h
    simp at h
  | cons tc rest ih =>
    intro sys h1 h2 h3 h4 htimes
    obtain ⟨t, c⟩ := tc
    obtain ⟨hle, hnf, hrest⟩ := htimes
    have hstep := keystrokeStep_blank_session tok sys t c h1 h2 h3 h4 hnf
    have hrun : runKeystrokes sys ((t, c) :: rest)
        = runKeystrokes (keystrokeStep sys (t, c)) rest := rfl
    rw [hrun, hstep]
    have := ih ({ sys with
        app := { sys.app with newContent := c, currentTitle := deriveTitle c },
        now := t,
        timer := if trimL c.data = [] then none else some (t + 2000) })
      h1 h2 h3 h4 hrest
    obtain ⟨i1, i2, i3, i4, i5, i6, i7, i8, i9, i10⟩ := this
    refine ⟨i1, i2, i3, i4, i5, i6, i7, i8, ?_, ?_⟩
    · intro h
      exact absurd h (List.cons_ne_nil (t, c) rest)
    · intro t2 c2 hlast
      cases rest with
      | nil =>
        rw [List.getLast?_singleton] at hlast
        cases Option.some.inj hlast
        rw [i9 rfl]
        exact ⟨rfl, rfl, rfl, rfl⟩
      | cons r1 r2 =>
        rw [List.getLast?_cons_cons] at hlast
        exact i10 t2 c2 hlast

theorem runKeystrokes_open_session (tok : String) (nid : Nat) :
    ∀ (ks : List (Nat × String)) (sys : Sys),
      sys.app.token = some tok → sys.app.selectedNoteId = some nid →
      sys.app.tempDeletedNote = none → sys.app.isTitleManual = false →
      (∀ p ∈ ks, trimL (Prod.snd p).data ≠ []) →
      noFireTimes sys.timer sys.now ks →
      (runKeystrokes sys ks).app.token = some tok ∧
      (runKeystrokes sys ks).app.selectedNoteId = some nid ∧
      (runKeystrokes sys ks).app.tempDeletedNote = none ∧
      (runKeystrokes sys ks).app.isTitleManual = false ∧
      (runKeystrokes sys ks).sent = sys.sent ∧
      (runKeystrokes sys ks).app.notes = sys.app.notes ∧
      (runKeystrokes sys ks).app.originalContent = sys.app.originalContent ∧
      (runKeystrokes sys ks).app.originalTitle = sys.app.originalTitle ∧
      (ks = [] → runKeystrokes sys ks = sys) ∧
      (∀ t c, ks.getLast? = some (t, c) →
        (runKeystrokes sys ks).now = t ∧
        (runKeystrokes sys ks).app.newContent = c ∧
        (runKeystrokes sys ks).app.currentTitle = deriveTitle c ∧
        (runKeystrokes sys ks).timer = some (t + 2000)) := by
  intro ks
  induction ks with
  | nil =>
    intro sys h1 h2 h3 h4 _ _
    refine ⟨h1, h2, h3, h4, rfl, rfl, rfl, rfl, fun _ => rfl, ?_⟩
    intro t c h
    simp at h
  | cons tc rest ih =>
    intro sys h1 h2 h3 h4 hblank htimes
    obtain ⟨t, c⟩ := tc
    obtain ⟨hle, hnf, hrest⟩ := htimes
    have hc : trimL c.data ≠ [] := hblank (t, c) (List.mem_cons_self _ _)
    have hstep := keystrokeStep_open_session tok nid sys t c h1 h2 h3 h4 hc hnf
    have hrun : runKeystrokes sys ((t, c) :: rest)
        = runKeystrokes (keystrokeStep sys (t, c)) rest := rfl
    rw [hrun, hstep]
    rw [if_neg hc] at hrest
    have := ih ({ sys with
        app := { sys.app with newContent := c, currentTitle := deriveTitle c },
        now := t,
        timer := some (t + 2000) })
      h1 h2 h3 h4 (fun p hp => hblank p (List.mem_cons_of_mem _ hp)) hrest
    obtain ⟨i1, i2, i3, i4, i5, i6, i7, i8, i9, i10⟩ := this
    refine ⟨i1, i2, i3, i4, i5, i6, i7, i8, ?_, ?_⟩
    · intro h
      exact absurd h (List.cons_ne_nil (t, c) rest)
    · intro t2 c2 hlast
      cases rest with
      | nil =>
        rw [List.getLast?_singleton] at hlast
        cases Option.some.inj hlast
        rw [i9 rfl]
        exact ⟨rfl, rfl, rfl, rfl⟩
      | cons r1 r2 =>
        rw [List.getLast?_cons_cons] at hlast
        exact i10 t2 c2 hlast

theorem advanceTo_fire {sys : Sys} {ft T : Nat} (htm : sys.timer = some ft)
    (hT : ft ≤ T) :
    advanceTo T sys = { fireTimer { sys with now := ft, timer := none } with now := T } := by
  simp only [advanceTo, htm, hT, if_true]

theorem fireTimer_create {sys : Sys} {tok : String}
    (hsel : sys.app.selectedNoteId = none) (htok : sys.app.token = some tok)
    (hc : trimL sys.app.newContent.data ≠ []) :
    fireTimer sys = { sys with sent := sys.sent ++
      [Request.create (addNoteTitle sys.app.currentTitle sys.app.newContent)
        sys.app.newContent] } := by
  unfold fireTimer
  simp only [hsel, addNoteRequest, htok]
  rw [if_neg hc]

theorem fireTimer_blank_noop {sys : Sys}
    (hsel : sys.app.selectedNoteId = none)
    (hc : trimL sys.app.newContent.data = []) :
    fireTimer sys = sys := by
  unfold fireTimer
  simp only [hsel, addNoteRequest]
  cases htok : sys.app.token with
  | none => rfl
  | some tok => rw [if_pos hc]

theorem fireTimer_update_dirty {sys : Sys} {tok : String} {nid : Nat}
    (hsel : sys.app.selectedNoteId = some nid) (htok : sys.app.token = some tok)
    (hc : trimL sys.app.newContent.data ≠ [])
    (hdirty : sys.app.newContent ≠ sys.app.originalContent ∨
      sys.app.currentTitle ≠ sys.app.originalTitle) :
    fireTimer sys = { sys with sent := sys.sent ++
      [Request.update nid sys.app.currentTitle ⟨trimL sys.app.newContent.data⟩] } := by
  have hne : (⟨trimL sys.app.newContent.data⟩ : String) ≠ "" :=
    fun h => hc ((stringMk_eq_empty_iff _).mp h)
  unfold fireTimer
  simp only [hsel, saveEditRequest, htok]
  rw [if_pos hdirty, if_neg (fun h => hne h.1), if_neg hne]

theorem fireTimer_update_clean {sys : Sys} {nid : Nat}
    (hsel : sys.app.selectedNoteId = some nid)
    (hclean : sys.app.newContent = sys.app.originalContent ∧
      sys.app.currentTitle = sys.app.originalTitle) :
    fireTimer sys = sys := by
  unfold fireTimer
  simp only [hsel]
  rw [if_neg]
  intro h
  rcases h with h | h
  · exact h hclean.1
  · exact h hclean.2

theorem deriveTitle_blank {c : String} (hc : trimL c.data = []) :
    deriveTitle c = "" := by
  rw [deriveTitle, if_pos hc]

/-- Clearing the textarea of an open existing note (handleContentChange,
App.tsx lines 505-511): the note moves from the collection to the undo
buffer, the selection empties, the derived title becomes blank, and the
auto-save effect leaves NO timer armed because the content is blank. -/
theorem keystrokeStep_clear {tok : String} {nid : Nat} {note : Note} {sys : Sys}
    {t : Nat} {c : String}
    (h1 : sys.app.token = some tok) (h2 : sys.app.selectedNoteId = some nid)
    (h3 : sys.app.tempDeletedNote = none) (h4 : sys.app.isTitleManual = false)
    (hc : trimL c.data = [])
    (hfind : (sys.app.notes.find? fun n => n.id == nid) = some note)
    (hnf : ∀ ft, sys.timer = some ft → t < ft) :
    keystrokeStep sys (t, c) =
      { sys with
        app := { sys.app with
          newContent := c,
          currentTitle := "",
          tempDeletedNote := some note,
          notes := sys.app.notes.filter fun n => n.id != nid,
          selectedNoteId := none },
        now := t,
        timer := none } := by
  unfold keystrokeStep
  rw [advanceTo_no_fire hnf]
  have hcond : trimL c.data = [] ∧
      ({ sys with now := t } : Sys).app.selectedNoteId ≠ none ∧
      ({ sys with now := t } : Sys).app.tempDeletedNote = none := by
    refine ⟨hc, ?_, h3⟩
    show sys.app.selectedNoteId ≠ none
    rw [h2]
    exact Option.some_ne_none nid
  have happ : handleContentChange c ({ sys with now := t } : Sys).app
      = { sys.app with
          newContent := c,
          tempDeletedNote := some note,
          notes := sys.app.notes.filter fun n => n.id != nid,
          selectedNoteId := none } := by
    unfold handleContentChange
    rw [if_pos hcond]
    show (match sys.app.selectedNoteId with
      | some nid => _
      | none => _) = _
    rw [h2]
    show (match sys.app.notes.find? fun n => n.id == nid with
      | some noteToDelete => _
      | none => _) = _
    rw [hfind]
  rw [happ]
  simp [titleEffect, armTimer, h4, h1, deriveTitle_blank hc, hc]

/-- Undo while the buffer holds a note: the handler (App.tsx lines 522-539)
restores the note and repopulates the session, then the title effect
re-derives the current title from the restored content and the auto-save
effect re-arms. -/
theorem undoStep_restore {tok : String} {note : Note} {sys : Sys} {t : Nat}
    (h1 : sys.app.token = some tok)
    (htd : sys.app.tempDeletedNote = some note)
    (h4 : sys.app.isTitleManual = false)
    (hnf : ∀ ft, sys.timer = some ft → t < ft) :
    undoStep t sys =
      { sys with
        app := { sys.app with
          notes := undoNotes note sys.app.notes,
          selectedNoteId := some note.id,
          newContent := note.content,
          currentTitle := deriveTitle note.content,
          originalContent := note.content,
          originalTitle := note.title,
          tempDeletedNote := none },
        now := t,
        timer := if trimL note.content.data = [] then none else some (t + 2000) } := by
  unfold undoStep
  rw [advanceTo_no_fire hnf]
  have happ : undoHandler ({ sys with now := t } : Sys).app
      = { sys.app with
          notes := undoNotes note sys.app.notes,
          selectedNoteId := some note.id,
          newContent := note.content,
          currentTitle := note.title,
          originalContent := note.content,
          originalTitle := note.title,
          tempDeletedNote := none } := by
    show undoHandler sys.app = _
    unfold undoHandler
    rw [htd]
  rw [happ]
  simp [titleEffect, armTimer, h4, h1]

/-! ### Claims -/

/-- C3 counterexample: the title-derivation function keeps only the first
FIVE whitespace tokens, so deriveTitle "a b c d e f g" is "a b c d e...",
not the "a b c d e f..." the claim asserts. -/
theorem claim3_counterexample :
    deriveTitle "a b c d e f g" = "a b c d e..." ∧
    deriveTitle "a b c d e f g" ≠ "a b c d e f..." := by
  constructor
  · decide
  · decide

/-- C3 amended: the title-derivation function splits the content on
whitespace, joins the first 5 tokens with single spaces, appends "..."
exactly when more than 5 tokens exist, and returns "" for blank or
whitespace-only content (shown by coincidence with the spec-worded
deriveTitleSpec); deriveTitle "" = "", deriveTitle "one two" = "one two",
and deriveTitle "a b c d e f g" = "a b c d e..." (six-token example
corrected to the five-token truncation the code performs). -/
theorem claim3_amended :
    (∀ content : String, deriveTitle content = deriveTitleSpec content) ∧
    deriveTitle "" = "" ∧
    deriveTitle "one two" = "one two" ∧
    deriveTitle "a b c d e f g" = "a b c d e..." := by
  refine ⟨fun c => (deriveTitleSpec_eq_deriveTitle c).symm, by decide, by decide, by decide⟩

/-- C10: saveEdit always sends the trimmed textarea content, with an empty
title whenever the trimmed content is empty, and a successful save sets the
baseline originalContent to the trimmed string while leaving newContent
untouched, so content that differs from its own trim stays dirty after a
successful save. -/
theorem claim10_saveEdit_trims (s : AppState) (tok : String) (nid : Nat)
    (htok : s.token = some tok) (hsel : s.selectedNoteId = some nid)
    (hnotomb : ¬((⟨trimL s.newContent.data⟩ : String) = "" ∧ s.tempDeletedNote ≠ none)) :
    saveEditRequest s = some (Request.update nid
      (if (⟨trimL s.newContent.data⟩ : String) = "" then "" else s.currentTitle)
      ⟨trimL s.newContent.data⟩) ∧
    (∀ resp : Note,
      (saveEditComplete (.ok resp) s).1.originalContent = ⟨trimL s.newContent.data⟩ ∧
      (saveEditComplete (.ok resp) s).1.newContent = s.newContent ∧
      (s.newContent ≠ ⟨trimL s.newContent.data⟩ →
        (saveEditComplete (.ok resp) s).1.newContent ≠
          (saveEditComplete (.ok resp) s).1.originalContent)) := by
  constructor
  · simp only [saveEditRequest, htok, hsel]
    rw [if_neg hnotomb]
  · intro resp
    simp [saveEditComplete, hsel]

/-- C10 witness: a concrete dirty session with newContent "hi " produces
the request update 1 "hi" "hi" and stays dirty after the save succeeds. -/
theorem claim10_witness :
    saveEditRequest exDirtyState = some (Request.update 1
      (if (⟨trimL exDirtyState.newContent.data⟩ : String) = ""
       then "" else exDirtyState.currentTitle)
      ⟨trimL exDirtyState.newContent.data⟩) ∧
    (saveEditComplete (.ok exRestored1) exDirtyState).1.newContent ≠
      (saveEditComplete (.ok exRestored1) exDirtyState).1.originalContent := by
  have h := claim10_saveEdit_trims exDirtyState "tok" 1 rfl rfl (by decide)
  exact ⟨h.1, ((h.2 exRestored1).2.2 (by decide))⟩

/-- C8 counterexample: a failing create (addNote) surfaces the alert
"Failed to add note" to the user, contradicting the claim that create and
update autosave failures are never surfaced. -/
theorem claim8_counterexample :
    (addNoteComplete .err exDirtyState).2 = ["Failed to add note"] ∧
    (addNoteComplete .err exDirtyState).2 ≠ [] := by
  constructor
  · rfl
  · decide

/-- C8 amended: a failing update (saveEdit) is never surfaced and leaves
the whole state - in particular content and dirty baseline - intact, so it
is silently retried on the next edit or debounce cycle; a failing create
(addNote) also leaves the state intact but DOES surface an alert
("Failed to add note"). -/
theorem claim8_amended (s : AppState) :
    saveEditComplete .err s = (s, []) ∧
    (addNoteComplete .err s).1 = s ∧
    (addNoteComplete .err s).2 = ["Failed to add note"] := by
  refine ⟨?_, rfl, rfl⟩
  unfold saveEditComplete
  cases s.selectedNoteId <;> rfl

/-- C9 counterexample: with trash [exT1, exT2], query "bet" (only exT2
visible) and stale selection [1], not every visible note is selected, yet
handleSelectAll empties the selection instead of selecting the visible
ids, because the code only compares lengths. -/
theorem claim9_counterexample :
    filteredTrashedNotes [exT1, exT2] "bet" = [exT2] ∧
    exT2.id ∉ [1] ∧
    handleSelectAll [1] [exT1, exT2] "bet" = [] ∧
    handleSelectAll [1] [exT1, exT2] "bet" ≠ [exT2.id] := by
  refine ⟨by decide, by decide, by decide, by decide⟩

/-- C9 amended: select-all on the trash view toggles by COUNT: when the
number of selected ids equals the number of visible (search-filtered)
trashed notes and at least one is visible, the selection is cleared - even
when the selected ids are not the visible ones; otherwise the selection
becomes exactly the ids of all visible trashed notes.  In particular the
claimed behaviour holds when the selection literally is the visible id
list, and selecting all then toggling again clears the selection. -/
theorem claim9_amended (selected : List Nat) (trashed : List TrashedNote) (q : String) :
    (selected.length = (filteredTrashedNotes trashed q).length ∧
        0 < (filteredTrashedNotes trashed q).length →
      handleSelectAll selected trashed q = []) ∧
    (selected.length ≠ (filteredTrashedNotes trashed q).length →
      handleSelectAll selected trashed q =
        (filteredTrashedNotes trashed q).map fun n => n.id) ∧
    (selected = ((filteredTrashedNotes trashed q).map fun n => n.id) ∧
        filteredTrashedNotes trashed q ≠ [] →
      handleSelectAll selected trashed q = []) ∧
    (filteredTrashedNotes trashed q ≠ [] →
      handleSelectAll (handleSelectAll selected trashed q) trashed q = [] ∨
      handleSelectAll selected trashed q = []) := by
  constructor
  · intro h
    unfold handleSelectAll
    rw [if_pos h]
  constructor
  · intro h
    unfold handleSelectAll
    rw [if_neg (fun hcon => h hcon.1)]
  constructor
  · intro h
    unfold handleSelectAll
    rw [if_pos ⟨by rw [h.1, List.length_map], List.length_pos.mpr h.2⟩]
  · intro hvis
    by_cases h : selected.length = (filteredTrashedNotes trashed q).length ∧
        0 < (filteredTrashedNotes trashed q).length
    · right
      unfold handleSelectAll
      rw [if_pos h]
    · left
      have hsel : handleSelectAll selected trashed q =
          (filteredTrashedNotes trashed q).map fun n => n.id := by
        unfold handleSelectAll
        rw [if_neg h]
      rw [hsel]
      unfold handleSelectAll
      rw [if_pos ⟨List.length_map _ _, List.length_pos.mpr hvis⟩]

/-- C9 amended witness: selecting all of a two-note trash and toggling
again clears the selection. -/
theorem claim9_amended_witness :
    handleSelectAll ((filteredTrashedNotes [exT1, exT2] "").map fun n => n.id)
      [exT1, exT2] "" = [] :=
  (claim9_amended ((filteredTrashedNotes [exT1, exT2] "").map fun n => n.id)
    [exT1, exT2] "").2.2.1 ⟨rfl, by decide⟩

/-- C2 counterexample: selection [1, 2] with id 1 restoring successfully
and id 2 failing: exT2 was in the trash and its request failed, yet after
the click the trashed collection is empty - the failed id does NOT remain
in the trashed collection, because the success branch filters out every
selected id. -/
theorem claim2_counterexample :
    outcomeOneFail 2 = none ∧
    exT2 ∈ [exT1, exT2] ∧
    (bulkRestoreClick outcomeOneFail [1, 2] [] [exT1, exT2]).2.1 = [] ∧
    exT2 ∉ (bulkRestoreClick outcomeOneFail [1, 2] [] [exT1, exT2]).2.1 := by
  refine ⟨by decide, by decide, by decide, by decide⟩

/-- C2 amended: bulk restore issues one POST /trashed-notes/:id/restore per
selected id, and every id whose request succeeds is inserted into the
active collection; but when at least one id succeeds, EVERY selected id
(succeeded or failed) is removed from the local trashed collection and the
selection is cleared, and when every id fails the collections and the
selection are left unchanged - a failed id remains in the trashed
collection only in the all-fail case. -/
theorem claim2_amended (outcome : Nat → Option Note) (sel : List Nat)
    (notes : List Note) (trashed : List TrashedNote) :
    (restoreRequests sel).length = sel.length ∧
    (∀ i n, i ∈ sel → outcome i = some n →
      n ∈ (bulkRestoreClick outcome sel notes trashed).1) ∧
    (sel.filterMap outcome ≠ [] →
      (bulkRestoreClick outcome sel notes trashed).2.1 =
        (trashed.filter fun tn => !(sel.contains tn.id)) ∧
      (bulkRestoreClick outcome sel notes trashed).2.2 = [] ∧
      ∀ tn ∈ (bulkRestoreClick outcome sel notes trashed).2.1, tn.id ∉ sel) ∧
    (sel.filterMap outcome = [] →
      bulkRestoreClick outcome sel notes trashed = (notes, trashed, sel)) := by
  refine ⟨List.length_map sel Request.restore, ?_, ?_, ?_⟩
  · intro i n hi hout
    have hmem : n ∈ sel.filterMap outcome := List.mem_filterMap.mpr ⟨i, hi, hout⟩
    have hpos : 0 < (sel.filterMap outcome).length :=
      List.length_pos.mpr (fun h => by rw [h] at hmem; exact absurd hmem (List.not_mem_nil n))
    unfold bulkRestoreClick
    rw [if_pos hpos]
    show n ∈ restoreNotesList (sel.filterMap outcome) notes
    unfold restoreNotesList
    exact mem_sortByUpdatedDesc.mpr (List.mem_append.mpr (Or.inr hmem))
  · intro hne
    have hpos : 0 < (sel.filterMap outcome).length := List.length_pos.mpr hne
    unfold bulkRestoreClick
    rw [if_pos hpos]
    refine ⟨rfl, rfl, ?_⟩
    intro tn htn hidmem
    have := (List.mem_filter.mp htn).2
    rw [Bool.not_eq_eq_eq_not, Bool.not_true] at this
    exact absurd (List.elem_iff.mpr hidmem) (by
      intro hcon
      rw [List.contains] at this
      rw [hcon] at this
      cases this)
  · intro hnil
    unfold bulkRestoreClick
    rw [if_neg (by rw [hnil]; decide)]

/-- C2 amended witness: in the concrete one-success-one-failure run the
successful note lands in the active collection. -/
theorem claim2_amended_witness :
    exRestored1 ∈ (bulkRestoreClick outcomeOneFail [1, 2] [] [exT1, exT2]).1 :=
  (claim2_amended outcomeOneFail [1, 2] [] [exT1, exT2]).2.1 1 exRestored1
    (by decide) (by decide)

/-- C7: the displayed projection contains exactly the active notes whose
title or content contains the query as a case-insensitive substring, the
projection is sorted by updatedAt descending with the most recently
updated note first, and every mutation (create, update, delete, restore)
leaves the active collection sorted by updatedAt descending. -/
theorem claim7_projection_sorted (notes : List Note) (q : String) (n : Note) :
    (n ∈ filteredNotes notes q ↔
      n ∈ notes ∧ matchesQuery q n.title n.content = true) ∧
    List.Sorted updatedDesc (filteredNotes notes q) ∧
    (∀ hd tl, filteredNotes notes q = hd :: tl →
      ∀ m ∈ filteredNotes notes q, m.updated_at ≤ hd.updated_at) ∧
    (∀ resp, List.Sorted updatedDesc (addNoteNotes resp notes)) ∧
    (∀ nid resp, List.Sorted updatedDesc (saveEditNotes nid resp notes)) ∧
    (∀ nid, List.Sorted updatedDesc notes →
      List.Sorted updatedDesc (deleteNoteNotes nid notes)) ∧
    (∀ restored, List.Sorted updatedDesc (restoreNotesList restored notes)) := by
  refine ⟨?_, sortByUpdatedDesc_sorted _, ?_, fun resp => sortByUpdatedDesc_sorted _,
    fun nid resp => sortByUpdatedDesc_sorted _,
    fun nid hs => List.Pairwise.filter _ hs,
    fun restored => sortByUpdatedDesc_sorted _⟩
  · unfold filteredNotes
    rw [mem_sortByUpdatedDesc, List.mem_filter]
  · intro hd tl heq m hm
    have hs : List.Sorted updatedDesc (filteredNotes notes q) :=
      sortByUpdatedDesc_sorted _
    rw [heq] at hs hm
    rcases List.mem_cons.mp hm with rfl | hm2
    · exact Nat.le_refl _
    · exact (List.sorted_cons.mp hs).1 m hm2

/-- C7 witness: concrete instance, with the delete-mutation hypothesis
discharged on a singleton collection. -/
theorem claim7_witness :
    (exNote ∈ filteredNotes [exNote] "" ↔
      exNote ∈ [exNote] ∧ matchesQuery "" exNote.title exNote.content = true) ∧
    List.Sorted updatedDesc (deleteNoteNotes 1 [exNote]) := by
  have h := claim7_projection_sorted [exNote] "" exNote
  exact ⟨h.1, h.2.2.2.2.2.1 1 (List.sorted_singleton exNote)⟩

/-- C4: typing into a blank editor (no note selected) while authenticated,
with every keystroke inside the debounce window of its predecessor and the
final content non-blank, issues no request while typing and exactly one
create request from exactly 2000ms after the last keystroke on, whose title
is deriveTitle of the final content (the title was never manually set:
this revision has no manual-title entry point). -/
theorem claim4_create_once (tok : String) (sys : Sys) (ks : List (Nat × String))
    (tn : Nat) (cn : String)
    (h1 : sys.app.token = some tok) (h2 : sys.app.selectedNoteId = none)
    (h3 : sys.app.tempDeletedNote = none) (h4 : sys.app.isTitleManual = false)
    (h5 : sys.sent = [])
    (htimes : noFireTimes sys.timer sys.now (ks ++ [(tn, cn)]))
    (hcn : trimL cn.data ≠ []) :
    (runKeystrokes sys (ks ++ [(tn, cn)])).sent = [] ∧
    (runKeystrokes sys (ks ++ [(tn, cn)])).timer = some (tn + 2000) ∧
    (∀ T, T < tn + 2000 →
      (advanceTo T (runKeystrokes sys (ks ++ [(tn, cn)]))).sent = []) ∧
    (∀ T, tn + 2000 ≤ T →
      (advanceTo T (runKeystrokes sys (ks ++ [(tn, cn)]))).sent =
        [Request.create (deriveTitle cn) cn]) := by
  obtain ⟨i1, i2, i3, i4, i5, i6, i7, i8, i9, i10⟩ :=
    runKeystrokes_blank_session tok (ks ++ [(tn, cn)]) sys h1 h2 h3 h4 htimes
  obtain ⟨j1, j2, j3, j4⟩ := i10 tn cn (List.getLast?_concat ks)
  rw [if_neg hcn] at j4
  have hsent : (runKeystrokes sys (ks ++ [(tn, cn)])).sent = [] := by rw [i5, h5]
  refine ⟨hsent, j4, ?_, ?_⟩
  · intro T hT
    rw [advanceTo_no_fire (by
      intro ft hft
      rw [j4] at hft
      cases Option.some.inj hft
      exact hT)]
    exact hsent
  · intro T hT
    rw [advanceTo_fire j4 hT]
    have hfire := @fireTimer_create
      { runKeystrokes sys (ks ++ [(tn, cn)]) with now := tn + 2000, timer := none }
      tok i2 i1 (by
        show trimL (runKeystrokes sys (ks ++ [(tn, cn)])).app.newContent.data ≠ []
        rw [j2]
        exact hcn)
    rw [hfire]
    show (runKeystrokes sys (ks ++ [(tn, cn)])).sent ++ _ = _
    rw [hsent, j2, j3, addNoteTitle_derive cn hcn, List.nil_append]

/-- C4 witness: two keystrokes 1ms apart in a fresh blank session produce
exactly the one create request, 2000ms after the second keystroke. -/
theorem claim4_witness :
    (advanceTo 2011 (runKeystrokes exBlankSys [(10, "hello"), (11, "hello world")])).sent =
      [Request.create (deriveTitle "hello world") "hello world"] := by
  have htimes : noFireTimes exBlankSys.timer exBlankSys.now
      [(10, "hello"), (11, "hello world")] := by
    rw [noFireTimes_cons]
    refine And.intro (by decide) (And.intro ?_ ?_)
    · intro ft h
      exact Option.noConfusion h
    rw [noFireTimes_cons]
    refine And.intro (by decide) (And.intro ?_ (noFireTimes_nil _ _))
    intro ft h
    rw [show (if trimL "hello".data = [] then (none : Option Nat)
        else some (10 + 2000)) = some 2010 from by decide] at h
    cases Option.some.inj h
    decide
  have h := claim4_create_once "tok" exBlankSys [(10, "hello")] 11 "hello world"
    rfl rfl rfl rfl rfl htimes (by decide)
  exact h.2.2.2 2011 (by decide)

/-- C5: for a sequence of edits to an open existing note all inside a
single debounce window (content kept non-blank), each new edit cancels the
previously armed timer, no request at all is issued while typing or before
the final deadline, and when the timer fires only the final content and
title are sent - one update carrying the trimmed final content and its
derived title - and nothing is sent if the session is clean. -/
theorem claim5_last_write (tok : String) (nid : Nat) (sys : Sys)
    (ks : List (Nat × String)) (tn : Nat) (cn : String)
    (h1 : sys.app.token = some tok) (h2 : sys.app.selectedNoteId = some nid)
    (h3 : sys.app.tempDeletedNote = none) (h4 : sys.app.isTitleManual = false)
    (hblank : ∀ p ∈ ks ++ [(tn, cn)], trimL (Prod.snd p).data ≠ [])
    (htimes : noFireTimes sys.timer sys.now (ks ++ [(tn, cn)])) :
    (runKeystrokes sys (ks ++ [(tn, cn)])).sent = sys.sent ∧
    (runKeystrokes sys (ks ++ [(tn, cn)])).timer = some (tn + 2000) ∧
    (∀ T, T < tn + 2000 →
      (advanceTo T (runKeystrokes sys (ks ++ [(tn, cn)]))).sent = sys.sent) ∧
    (∀ T, tn + 2000 ≤ T →
      (advanceTo T (runKeystrokes sys (ks ++ [(tn, cn)]))).sent = sys.sent ++
        (if cn ≠ sys.app.originalContent ∨ deriveTitle cn ≠ sys.app.originalTitle
         then [Request.update nid (deriveTitle cn) ⟨trimL cn.data⟩] else [])) := by
  have hcn : trimL cn.data ≠ [] :=
    hblank (tn, cn) (List.mem_append.mpr (Or.inr (List.mem_cons_self _ _)))
  obtain ⟨i1, i2, i3, i4, i5, i6, i7, i8, i9, i10⟩ :=
    runKeystrokes_open_session tok nid (ks ++ [(tn, cn)]) sys h1 h2 h3 h4 hblank htimes
  obtain ⟨j1, j2, j3, j4⟩ := i10 tn cn (List.getLast?_concat ks)
  refine ⟨i5, j4, ?_, ?_⟩
  · intro T hT
    rw [advanceTo_no_fire (by
      intro ft hft
      rw [j4] at hft
      cases Option.some.inj hft
      exact hT)]
    exact i5
  · intro T hT
    rw [advanceTo_fire j4 hT]
    by_cases hdirty : cn ≠ sys.app.originalContent ∨
        deriveTitle cn ≠ sys.app.originalTitle
    · have hfire := @fireTimer_update_dirty
        { runKeystrokes sys (ks ++ [(tn, cn)]) with now := tn + 2000, timer := none }
        tok nid i2 i1
        (by
          show trimL (runKeystrokes sys (ks ++ [(tn, cn)])).app.newContent.data ≠ []
          rw [j2]
          exact hcn)
        (by
          show (runKeystrokes sys (ks ++ [(tn, cn)])).app.newContent ≠
              (runKeystrokes sys (ks ++ [(tn, cn)])).app.originalContent ∨
            (runKeystrokes sys (ks ++ [(tn, cn)])).app.currentTitle ≠
              (runKeystrokes sys (ks ++ [(tn, cn)])).app.originalTitle
          rw [j2, j3, i7, i8]
          exact hdirty)
      rw [hfire]
      show (runKeystrokes sys (ks ++ [(tn, cn)])).sent ++ _ = _
      rw [i5, j2, j3, if_pos hdirty]
    · have hclean : (runKeystrokes sys (ks ++ [(tn, cn)])).app.newContent =
          (runKeystrokes sys (ks ++ [(tn, cn)])).app.originalContent ∧
          (runKeystrokes sys (ks ++ [(tn, cn)])).app.currentTitle =
          (runKeystrokes sys (ks ++ [(tn, cn)])).app.originalTitle := by
        rw [j2, j3, i7, i8]
        push_neg at hdirty
        exact hdirty
      have hfire := @fireTimer_update_clean
        { runKeystrokes sys (ks ++ [(tn, cn)]) with now := tn + 2000, timer := none }
        nid i2 hclean
      rw [hfire]
      show (runKeystrokes sys (ks ++ [(tn, cn)])).sent = _
      rw [i5, if_neg hdirty, List.append_nil]

/-- C5 witness: one dirty edit to the open note, fired at its deadline,
sends exactly the final trimmed content with its derived title. -/
theorem claim5_witness :
    (advanceTo 2005 (runKeystrokes exOpenSys [(5, "hello there")])).sent =
      [Request.update 1 (deriveTitle "hello there") ⟨trimL "hello there".data⟩] := by
  have htimes : noFireTimes exOpenSys.timer exOpenSys.now [(5, "hello there")] := by
    rw [noFireTimes_cons]
    refine And.intro (by decide) (And.intro ?_ (noFireTimes_nil _ _))
    intro ft h
    exact Option.noConfusion h
  have h := claim5_last_write "tok" 1 exOpenSys [] 5 "hello there"
    rfl rfl rfl rfl
    (by
      intro p hp
      rw [List.nil_append] at hp
      rw [List.mem_singleton] at hp
      cases hp
      decide)
    htimes
  have h2 := h.2.2.2 2005 (by decide)
  rw [List.nil_append] at h2
  rw [h2, if_pos (by decide)]
  rfl

/-- Whatever the timer state, letting time pass over a clean open session
issues no request: a fired timer takes the not-dirty branch. -/
theorem advanceTo_sent_clean {sys : Sys} {nid : Nat} (T : Nat)
    (hsel : sys.app.selectedNoteId = some nid)
    (hclean : sys.app.newContent = sys.app.originalContent ∧
      sys.app.currentTitle = sys.app.originalTitle) :
    (advanceTo T sys).sent = sys.sent := by
  unfold advanceTo
  cases htm : sys.timer with
  | none => rfl
  | some ft =>
    show (if ft ≤ T
      then ({ fireTimer { sys with now := ft, timer := none } with now := T } : Sys)
      else { sys with now := T, timer := some ft }).sent = sys.sent
    by_cases hT : ft ≤ T
    · rw [if_pos hT]
      show (fireTimer { sys with now := ft, timer := none }).sent = sys.sent
      rw [@fireTimer_update_clean { sys with now := ft, timer := none } nid hsel hclean]
    · rw [if_neg hT]

/-- C1 counterexample: a concrete open session whose content is cleared at
time 10.  The note leaves the projection and enters the undo buffer with
no request, but NO timer is armed, and when the debounce window has
elapsed (time 2010) - and at any later time - the request log is still
empty: no delete (move-to-trash) request is ever issued, contradicting the
claim's final clause. -/
theorem claim1_counterexample :
    (keystrokeStep exOpenSys (10, "")).app.notes = [] ∧
    (keystrokeStep exOpenSys (10, "")).app.tempDeletedNote = some exNote ∧
    (keystrokeStep exOpenSys (10, "")).timer = none ∧
    (advanceTo 2010 (keystrokeStep exOpenSys (10, ""))).sent = [] ∧
    (advanceTo 100000 (keystrokeStep exOpenSys (10, ""))).sent = [] := by
  refine ⟨by decide, by decide, by decide, by decide, by decide⟩

/-- C1 amended: clearing the content of an open existing note removes it
from the active collection immediately with no network request, and no
network call ever occurs while the content stays empty - the auto-save
effect arms NO timer on blank content, so when the debounce window
elapses no delete (or any other) request is issued, the note remaining
only locally removed; undo at any time restores the very note with its
content as current and baseline values and still issues no request. -/
theorem claim1_amended (tok : String) (nid : Nat) (note : Note) (sys : Sys)
    (t u : Nat) (c : String)
    (h1 : sys.app.token = some tok) (h2 : sys.app.selectedNoteId = some nid)
    (h3 : sys.app.tempDeletedNote = none) (h4 : sys.app.isTitleManual = false)
    (hc : trimL c.data = [])
    (hfind : (sys.app.notes.find? fun n => n.id == nid) = some note)
    (hnf : ∀ ft, sys.timer = some ft → t < ft) :
    (keystrokeStep sys (t, c)).app.notes =
      (sys.app.notes.filter fun n => n.id != nid) ∧
    note ∉ (keystrokeStep sys (t, c)).app.notes ∧
    (keystrokeStep sys (t, c)).sent = sys.sent ∧
    (keystrokeStep sys (t, c)).timer = none ∧
    (∀ T, (advanceTo T (keystrokeStep sys (t, c))).sent = sys.sent) ∧
    note ∈ (undoStep u (keystrokeStep sys (t, c))).app.notes ∧
    (undoStep u (keystrokeStep sys (t, c))).app.newContent = note.content ∧
    (undoStep u (keystrokeStep sys (t, c))).app.originalContent = note.content ∧
    (undoStep u (keystrokeStep sys (t, c))).app.originalTitle = note.title ∧
    (undoStep u (keystrokeStep sys (t, c))).app.tempDeletedNote = none ∧
    (undoStep u (keystrokeStep sys (t, c))).sent = sys.sent := by
  have hid : note.id = nid := by
    have hbeq := List.find?_some hfind
    exact eq_of_beq hbeq
  have hstep := keystrokeStep_clear h1 h2 h3 h4 hc hfind hnf
  rw [hstep]
  have hundo := @undoStep_restore tok note
    ({ sys with
        app := { sys.app with
          newContent := c,
          currentTitle := "",
          tempDeletedNote := some note,
          notes := sys.app.notes.filter fun n => n.id != nid,
          selectedNoteId := none },
        now := t,
        timer := none }) u h1 rfl h4 (fun ft h => Option.noConfusion h)
  rw [hundo]
  refine ⟨rfl, ?_, rfl, rfl, fun T => rfl, ?_, rfl, rfl, rfl, rfl, rfl⟩
  · intro hmem
    have := (List.mem_filter.mp hmem).2
    rw [hid] at this
    simp at this
  · show note ∈ undoNotes note (sys.app.notes.filter fun n => n.id != nid)
    unfold undoNotes
    exact mem_sortByUpdatedDesc.mpr
      (List.mem_append.mpr (Or.inr (List.mem_singleton.mpr rfl)))

/-- C1 amended witness: the concrete cleared session issues nothing and
undo at time 20 restores the note. -/
theorem claim1_amended_witness :
    (keystrokeStep exOpenSys (10, "")).sent = [] ∧
    exNote ∈ (undoStep 20 (keystrokeStep exOpenSys (10, ""))).app.notes := by
  have h := claim1_amended "tok" 1 exNote exOpenSys 10 20 "" rfl rfl rfl rfl
    (by decide) (by decide) (fun ft hcon => Option.noConfusion hcon)
  exact ⟨h.2.2.1, h.2.2.2.2.2.1⟩

/-- C6: invoking undo while the buffer holds the tombstoned note makes the
note reappear in the active collection with its original content and
title, repopulates the session's current and baseline content/title from
it (the current title through the title deriver, which reproduces the
stored title since every title this revision persists is the derived
one), empties the buffer, and sends zero requests - in particular zero
delete requests - during the whole clear-then-undo episode and beyond. -/
theorem claim6_undo_restores (tok : String) (nid : Nat) (note : Note) (sys : Sys)
    (t u : Nat) (c : String)
    (h1 : sys.app.token = some tok) (h2 : sys.app.selectedNoteId = some nid)
    (h3 : sys.app.tempDeletedNote = none) (h4 : sys.app.isTitleManual = false)
    (hc : trimL c.data = [])
    (hfind : (sys.app.notes.find? fun n => n.id == nid) = some note)
    (hnf : ∀ ft, sys.timer = some ft → t < ft)
    (htitle : note.title = deriveTitle note.content) :
    (keystrokeStep sys (t, c)).app.tempDeletedNote = some note ∧
    note ∈ (undoStep u (keystrokeStep sys (t, c))).app.notes ∧
    (undoStep u (keystrokeStep sys (t, c))).app.newContent = note.content ∧
    (undoStep u (keystrokeStep sys (t, c))).app.currentTitle = note.title ∧
    (undoStep u (keystrokeStep sys (t, c))).app.originalContent = note.content ∧
    (undoStep u (keystrokeStep sys (t, c))).app.originalTitle = note.title ∧
    (undoStep u (keystrokeStep sys (t, c))).app.tempDeletedNote = none ∧
    (undoStep u (keystrokeStep sys (t, c))).sent = sys.sent ∧
    (∀ T, (advanceTo T (undoStep u (keystrokeStep sys (t, c)))).sent = sys.sent) := by
  have hstep := keystrokeStep_clear h1 h2 h3 h4 hc hfind hnf
  rw [hstep]
  have hundo := @undoStep_restore tok note
    ({ sys with
        app := { sys.app with
          newContent := c,
          currentTitle := "",
          tempDeletedNote := some note,
          notes := sys.app.notes.filter fun n => n.id != nid,
          selectedNoteId := none },
        now := t,
        timer := none }) u h1 rfl h4 (fun ft h => Option.noConfusion h)
  rw [hundo]
  refine ⟨rfl, ?_, rfl, htitle.symm, rfl, rfl, rfl, rfl, ?_⟩
  · show note ∈ undoNotes note (sys.app.notes.filter fun n => n.id != nid)
    unfold undoNotes
    exact mem_sortByUpdatedDesc.mpr
      (List.mem_append.mpr (Or.inr (List.mem_singleton.mpr rfl)))
  · intro T
    exact @advanceTo_sent_clean _ note.id T rfl ⟨rfl, htitle.symm⟩

/-- C6 witness: the concrete clear-then-undo episode restores the note and
the request log stays empty arbitrarily far past every debounce window. -/
theorem claim6_witness :
    exNote ∈ (undoStep 20 (keystrokeStep exOpenSys (10, ""))).app.notes ∧
    (advanceTo 99999 (undoStep 20 (keystrokeStep exOpenSys (10, "")))).sent = [] := by
  have h := claim6_undo_restores "tok" 1 exNote exOpenSys 10 20 "" rfl rfl rfl rfl
    (by decide) (by decide) (fun ft hcon => Option.noConfusion hcon) (by decide)
  exact ⟨h.2.1, h.2.2.2.2.2.2.2.2 99999⟩

end Notefied
